import Mathlib

/-!
Shallow embedding of the SDF-descent core of this repository
(`src/scripts/sdf_descent.py`, function `project_to_valid`), together with
theorems settling the specification claims about it.

Modelling choices:
* real numbers are modelled as rationals (`ℚ`), keeping the arithmetic exact
  and every definition executable;
* the SDF oracle `robot.sdf(q, env)` is an arbitrary pure function
  `sdf : Config → Env → ℚ` over an opaque environment type, as the spec
  treats it (deterministic, side-effect free);
* `np.random.default_rng(seed).uniform(lo, hi, (K, D))` is modelled by an
  arbitrary deterministic function `uniform seed lo hi i d` giving the entry
  at position `(i, d)` of the drawn matrix — the algorithm is quantified over
  every such generator;
* the in-place numpy mutations of the candidate matrix (`candidates[i, d] = …`,
  `candidates[i] += …`) are modelled by explicit state passing of the pool
  through the loops, so that the probe/restore discipline of the source is
  preserved literally;
* every SDF evaluation is counted: `gradEvals` counts oracle calls made by the
  finite-difference gradient estimation, `baseEvals` counts the per-step
  baseline `dists[i] = robot.sdf(candidates[i], env)` calls;
* the caller's configuration buffer `q` is carried through as the `qArr`
  field of the result, recording what the caller's array holds after the call
  (the source never writes to it: `np.tile` allocates a fresh matrix).
-/

namespace SDFDescent

/-- A robot configuration: the list of joint values (reals modelled as `ℚ`). -/
abbrev Config := List ℚ

/-- The candidate pool: an ordered collection of configurations. -/
abbrev Pool := List Config

/-- Source: `n_candidates = 8`. -/
def nCandidates : ℕ := 8

/-- Source: `h = 1e-4`, the finite-difference probe size. -/
def h : ℚ := 1 / 10000

section Model

variable {Env : Type} (sdf : Config → Env → ℚ) (env : Env)
variable (uniform : ℕ → ℚ → ℚ → ℕ → ℕ → ℚ)

/-- Candidate pool initialization, from the source lines
`rng = np.random.default_rng(42)`,
`candidates = np.tile(q, (n_candidates, 1))`,
`noise = rng.uniform(-noise_scale, noise_scale, (n_candidates, dim))`,
`candidates += noise`. -/
def initPool (q : Config) (noise_scale : ℚ) : Pool :=
  let dim := q.length
  let candidates := List.replicate nCandidates q
  let noise := (List.range nCandidates).map
    (fun i => (List.range dim).map (fun d => uniform 42 (-noise_scale) noise_scale i d))
  List.zipWith (fun c nrow => List.zipWith (fun a b => a + b) c nrow) candidates noise

/-- One finite-difference probe pair for dimension `d` of candidate `i`,
from the source body of the inner `for d in range(dim)` loop:
`candidates[i, d] = val + h; f_plus = robot.sdf(candidates[i], env);`
`candidates[i, d] = val - h; f_minus = robot.sdf(candidates[i], env);`
`candidates[i, d] = val; grads[i, d] = (f_plus - f_minus) / (2 * h)`.
The pool is threaded through to model the in-place writes; the `ℕ` component
counts SDF evaluations. -/
def gradDim (i d : ℕ) (val : ℚ) (st : Pool × ℕ) : (Pool × ℕ) × ℚ :=
  let cs := st.1
  let cs1 := cs.set i ((cs.getD i []).set d (val + h))
  let f_plus := sdf (cs1.getD i []) env
  let cs2 := cs1.set i ((cs1.getD i []).set d (val - h))
  let f_minus := sdf (cs2.getD i []) env
  let cs3 := cs2.set i ((cs2.getD i []).set d val)
  ((cs3, st.2 + 2), (f_plus - f_minus) / (2 * h))

/-- Gradient estimation for one candidate, from the source
`original_q = candidates[i].copy()` followed by the `for d in range(dim)`
loop; returns the threaded pool/evaluation count and the gradient row
`grads[i]`. -/
def gradCandidate (dim i : ℕ) (st : Pool × ℕ) : (Pool × ℕ) × Config :=
  let original_q := st.1.getD i []
  (List.range dim).foldl
    (fun acc d =>
      let r := gradDim sdf env i d (original_q.getD d 0) acc.1
      (r.1, acc.2 ++ [r.2]))
    (st, [])

/-- Gradient estimation over the whole pool, from the source
`for i in range(n_candidates)` loop around `gradCandidate`; returns the
threaded pool/evaluation count and the gradient matrix `grads`. -/
def gradLoop (dim : ℕ) (st : Pool × ℕ) : (Pool × ℕ) × List Config :=
  (List.range nCandidates).foldl
    (fun acc i =>
      let r := gradCandidate sdf env dim i acc.1
      (r.1, acc.2 ++ [r.2]))
    (st, [])

/-- The ascent update, from the source
`for i in range(n_candidates): candidates[i] += grads[i] * learning_rate`. -/
def updateLoop (lr : ℚ) (cs : Pool) (grads : List Config) : Pool :=
  (List.range nCandidates).foldl
    (fun cs i =>
      cs.set i (List.zipWith (fun a g => a + g * lr) (cs.getD i []) (grads.getD i [])))
    cs

/-- One iteration of the source `for step in range(steps)` loop: baseline SDF
values `dists` (computed and discarded, counted in the third component),
gradient estimation, then the ascent update.  The state is
`(candidates, gradEvals, baseEvals)`. -/
def stepFn (dim : ℕ) (lr : ℚ) (st : Pool × ℕ × ℕ) : Pool × ℕ × ℕ :=
  let dists := (List.range nCandidates).map (fun i => sdf (st.1.getD i []) env)
  let base := st.2.2 + dists.length
  let r := gradLoop sdf env dim (st.1, st.2.1)
  (updateLoop lr r.1.1 r.2, r.1.2, base)

/-- Result of a `project_to_valid` call: the caller's configuration buffer
after the call (`qArr`), the returned candidate pool, and the two SDF
evaluation counters. -/
structure Store where
  qArr : Config
  candidates : Pool
  gradEvals : ℕ
  baseEvals : ℕ
  deriving Repr, DecidableEq

/-- The solve driver `project_to_valid(robot, q, env, steps, learning_rate,
noise_scale)` from `src/scripts/sdf_descent.py`: pool initialization followed
by `steps` iterations of `stepFn`.  The `qArr` field records the caller's `q`
buffer after the call: the source reads `q` (via `len` and `np.tile`, which
copies) and never writes to it. -/
def project_to_valid (q : Config) (steps : ℕ) (learning_rate noise_scale : ℚ) : Store :=
  let dim := q.length
  let cand0 := initPool uniform q noise_scale
  let r := (List.range steps).foldl
    (fun st _ => stepFn sdf env dim learning_rate st) (cand0, 0, 0)
  ⟨q, r.1, r.2.1, r.2.2⟩

/-- Spec-side reference (section 4.2 of the spec): the central-difference
gradient of the SDF at one candidate, `g[d] = (sdf(c with c[d]+h, env) -
sdf(c with c[d]-h, env)) / (2h)`, computed on a snapshot with no mutation. -/
def centralDiffGrad (c : Config) : Config :=
  (List.range c.length).map
    (fun d =>
      (sdf (c.set d (c.getD d 0 + h)) env - sdf (c.set d (c.getD d 0 - h)) env) / (2 * h))

/-- Spec-side reference (sections 4.3 and 9 of the spec): one
snapshot-then-update step — all `K` gradients are computed from the incoming
pool, then every candidate is updated; the pool is never mutated during
gradient computation. -/
def specStep (lr : ℚ) (cs : Pool) : Pool :=
  let grads := cs.map (centralDiffGrad sdf env)
  List.zipWith (fun c g => List.zipWith (fun a gd => a + gd * lr) c g) cs grads

/-- Spec-side reference solve driver: initialization followed by `steps`
snapshot-then-update iterations. -/
def projectSpec (q : Config) (steps : ℕ) (lr noise_scale : ℚ) : Pool :=
  (List.range steps).foldl (fun cs _ => specStep sdf env lr cs)
    (initPool uniform q noise_scale)

/-- One step of the program with the baseline-SDF computation
(`dists[i] = robot.sdf(candidates[i], env)`) removed: gradient estimation and
the ascent update only.  State is `(candidates, gradEvals)`. -/
def stepNoBase (dim : ℕ) (lr : ℚ) (st : Pool × ℕ) : Pool × ℕ :=
  let r := gradLoop sdf env dim st
  (updateLoop lr r.1.1 r.2, r.1.2)

/-- The solve driver with the baseline-SDF computation removed (used to show
the baseline values are inert). -/
def projectNoBase (q : Config) (steps : ℕ) (lr noise_scale : ℚ) : Pool × ℕ :=
  (List.range steps).foldl
    (fun st _ => stepNoBase sdf env q.length lr st)
    (initPool uniform q noise_scale, 0)

/-- The call as seen by a process that carries an ambient global random-number
generator state of an arbitrary type `G`.  The source constructs its generator
locally (`rng = np.random.default_rng(42)`) and never reads or writes the
process-wide numpy generator, so the ambient state passes through the call
unchanged and the result never depends on it. -/
def project_to_valid_global {G : Type} (g : G) (q : Config) (steps : ℕ)
    (learning_rate noise_scale : ℚ) : Store × G :=
  (project_to_valid sdf env uniform q steps learning_rate noise_scale, g)

end Model

section Fallible

variable {Env : Type} (sdfE : Config → Env → Option ℚ) (env : Env)
variable (uniform : ℕ → ℚ → ℚ → ℕ → ℕ → ℚ)

/-- Exception-aware evaluation of `f` over a list of indices, collecting the
results in order and aborting on the first failure (models a Python loop whose
body may raise, filling an array). -/
def mapME (f : ℕ → Option ℚ) : List ℕ → Option (List ℚ)
  | [] => some []
  | i :: is => (f i).bind (fun v => (mapME f is).map (fun vs => v :: vs))

/-- Fallible-oracle version of `gradDim`: either SDF probe may raise, aborting
the call. -/
def gradDimE (i d : ℕ) (val : ℚ) (cs : Pool) : Option (Pool × ℚ) :=
  let cs1 := cs.set i ((cs.getD i []).set d (val + h))
  (sdfE (cs1.getD i []) env).bind (fun f_plus =>
    let cs2 := cs1.set i ((cs1.getD i []).set d (val - h))
    (sdfE (cs2.getD i []) env).map (fun f_minus =>
      (cs2.set i ((cs2.getD i []).set d val), (f_plus - f_minus) / (2 * h))))

/-- Fallible-oracle version of the `for d in range(dim)` loop of
`gradCandidate` (the dimension list is passed explicitly). -/
def gradDimsE (i : ℕ) (original_q : Config) (cs : Pool) :
    List ℕ → Option (Pool × Config)
  | [] => some (cs, [])
  | d :: ds =>
    (gradDimE sdfE env i d (original_q.getD d 0) cs).bind
      (fun r => (gradDimsE i original_q r.1 ds).map (fun r2 => (r2.1, r.2 :: r2.2)))

/-- Fallible-oracle version of the `for i in range(n_candidates)` gradient
loop (the candidate-index list is passed explicitly). -/
def gradCandsE (dim : ℕ) (cs : Pool) : List ℕ → Option (Pool × List Config)
  | [] => some (cs, [])
  | i :: is =>
    (gradDimsE sdfE env i (cs.getD i []) cs (List.range dim)).bind
      (fun r => (gradCandsE dim r.1 is).map (fun r2 => (r2.1, r.2 :: r2.2)))

/-- Fallible-oracle version of one step of the solve loop: the baseline
`dists` pass runs first (and aborts the call if any SDF evaluation raises),
then gradient estimation, then the ascent update. -/
def stepE (dim : ℕ) (lr : ℚ) (cs : Pool) : Option Pool :=
  (mapME (fun i => sdfE (cs.getD i []) env) (List.range nCandidates)).bind
    (fun _ =>
      (gradCandsE sdfE env dim cs (List.range nCandidates)).map
        (fun r => updateLoop lr r.1 r.2))

/-- Fallible-oracle version of the `for step in range(steps)` loop: an
exception in any step aborts the whole call with no partial result. -/
def loopE (dim : ℕ) (lr : ℚ) : ℕ → Pool → Option Pool
  | 0, cs => some cs
  | n + 1, cs => (stepE sdfE env dim lr cs).bind (loopE dim lr n)

/-- The solve driver over a fallible SDF oracle (a raised Python exception is
modelled as `none` and propagates to the caller).  The source performs no
dimension check of its own: `dim = len(q)` is taken from the argument and the
pool is built before any SDF evaluation. -/
def project_to_validE (q : Config) (steps : ℕ) (lr noise_scale : ℚ) : Option Pool :=
  loopE sdfE env q.length lr steps (initPool uniform q noise_scale)

end Fallible

/-! ### Proof-side auxiliary definitions -/

section AuxDefs

variable {Env : Type} (sdf : Config → Env → ℚ) (env : Env)

/-- The central-difference gradient row over the first `dim` dimensions of a
candidate (proof-side normal form of what `gradCandidate` produces). -/
def gradRow (dim : ℕ) (c : Config) : Config :=
  (List.range dim).map
    (fun d =>
      (sdf (c.set d (c.getD d 0 + h)) env - sdf (c.set d (c.getD d 0 - h)) env) / (2 * h))

/-- The matrix of gradient rows of the first `k` candidates. -/
def gradMat (dim k : ℕ) (cs : Pool) : List Config :=
  (List.range k).map (fun i => gradRow sdf env dim (cs.getD i []))

end AuxDefs

section AuxDefs2

variable (lr : ℚ) (grads : List Config)

/-- The first `k` iterations of the update loop (proof-side generalization of
`updateLoop`, which runs all `nCandidates` of them). -/
def updFold (k : ℕ) (cs : Pool) : Pool :=
  (List.range k).foldl
    (fun cs2 i =>
      cs2.set i (List.zipWith (fun a g => a + g * lr) (cs2.getD i []) (grads.getD i [])))
    cs

end AuxDefs2

/-- Shape invariant of the candidate pool: `K = nCandidates` candidates, each
of dimension `dim`. -/
def PoolOK (dim : ℕ) (cs : Pool) : Prop :=
  cs.length = nCandidates ∧ ∀ j, j < nCandidates → (cs.getD j []).length = dim

/-- A concrete SDF oracle (the sum of the joint values) used to witness the
gradient theorem on a small input. -/
def sumSdf : Config → Unit → ℚ := fun c _ => c.foldl (fun a b => a + b) 0

/-- A concrete fallible SDF oracle for a robot of dimension `2` that rejects
any configuration of the wrong dimension (modelling the compiled binding
raising on a size mismatch). -/
def strictSdf2 : Config → Unit → Option ℚ :=
  fun c _ => if c.length = 2 then some 0 else none

/-- A concrete noise generator: every draw returns the lower bound. -/
def uLow : ℕ → ℚ → ℚ → ℕ → ℕ → ℚ := fun _ lo _ _ _ => lo

/-! ### Basic list lemmas used throughout -/

theorem getD_lt {α : Type} (l : List α) {i : ℕ} (d : α) (hi : i < l.length) :
    l.getD i d = l[i] := by
  simp [List.getD_eq_getElem?_getD, List.getElem?_eq_getElem hi]

theorem getD_ge {α : Type} (l : List α) {i : ℕ} (d : α) (hi : l.length ≤ i) :
    l.getD i d = d := by
  simp [List.getD_eq_getElem?_getD, List.getElem?_eq_none hi]

theorem getD_set_self {α : Type} (l : List α) {i : ℕ} (v d : α) (hi : i < l.length) :
    (l.set i v).getD i d = v := by
  rw [getD_lt _ d (by simpa using hi)]
  exact List.getElem_set_self (by simpa using hi)

theorem getD_set_ne {α : Type} (l : List α) {i j : ℕ} (v d : α) (hij : i ≠ j) :
    (l.set i v).getD j d = l.getD j d := by
  by_cases hj : j < l.length
  · rw [getD_lt _ d (by simpa using hj), getD_lt _ d hj]
    exact List.getElem_set_ne hij (by simpa using hj)
  · rw [getD_ge _ d (by simpa using le_of_not_lt hj), getD_ge _ d (le_of_not_lt hj)]

theorem set_getD_self {α : Type} (l : List α) (i : ℕ) (d : α) :
    l.set i (l.getD i d) = l := by
  by_cases hi : i < l.length
  · apply List.ext_getElem (by simp)
    intro n h1 h2
    rw [List.getElem_set]
    split
    · rename_i hin
      subst hin
      rw [getD_lt _ d hi]
    · rfl
  · exact List.set_eq_of_length_le (le_of_not_lt hi)

theorem getD_map_range {α : Type} (f : ℕ → α) (d : α) {n i : ℕ} (hi : i < n) :
    ((List.range n).map f).getD i d = f i := by
  rw [getD_lt _ d (by simpa using hi)]
  simp

theorem set_getElem?_getD_self {α : Type} (l : List α) (i : ℕ) (d : α) :
    l.set i (l[i]?.getD d) = l := by
  simpa [List.getD_eq_getElem?_getD] using set_getD_self l i d

theorem set_getElem_self {α : Type} (l : List α) {i : ℕ} (hi : i < l.length) :
    l.set i l[i] = l := by
  have := set_getD_self l i l[i]
  rwa [getD_lt _ _ hi] at this

/-! ### Running the in-place gradient estimation -/

section GradRun

variable {Env : Type} (sdf : Config → Env → ℚ) (env : Env)

theorem gradRow_eq_centralDiffGrad (c : Config) :
    gradRow sdf env c.length c = centralDiffGrad sdf env c := rfl

theorem gradRow_succ (k : ℕ) (c : Config) :
    gradRow sdf env (k + 1) c
      = gradRow sdf env k c ++
        [(sdf (c.set k (c.getD k 0 + h)) env - sdf (c.set k (c.getD k 0 - h)) env) / (2 * h)] := by
  simp [gradRow, List.range_succ]

theorem gradMat_succ (dim k : ℕ) (cs : Pool) :
    gradMat sdf env dim (k + 1) cs
      = gradMat sdf env dim k cs ++ [gradRow sdf env dim (cs.getD k [])] := by
  simp [gradMat, List.range_succ]

/-- One probe pair leaves the pool exactly as it found it (the temporary
in-place writes are restored), adds two SDF evaluations, and returns the
central-difference component for dimension `d`. -/
theorem gradDim_run (cs : Pool) (i d n : ℕ) :
    gradDim sdf env i d ((cs.getD i []).getD d 0) (cs, n) =
      ((cs, n + 2),
        (sdf ((cs.getD i []).set d ((cs.getD i []).getD d 0 + h)) env -
         sdf ((cs.getD i []).set d ((cs.getD i []).getD d 0 - h)) env) / (2 * h)) := by
  by_cases hi : i < cs.length
  · simp [gradDim, List.set_set, getD_set_self, set_getD_self, set_getElem?_getD_self,
      set_getElem_self, hi]
  · have hcs : ∀ v : Config, cs.set i v = cs :=
      fun v => List.set_eq_of_length_le (le_of_not_lt hi)
    have hget : cs.getD i [] = [] := getD_ge _ _ (le_of_not_lt hi)
    simp only [gradDim, hget, List.set_nil, hcs]

/-- The per-candidate gradient loop over the first `dim` dimensions: the pool
comes back unchanged, `2 * dim` SDF evaluations are added, and the collected
row is the central-difference gradient row. -/
theorem gradCandidate_fold (dim : ℕ) (cs : Pool) (i n : ℕ) (acc : List ℚ) :
    (List.range dim).foldl
      (fun acc2 d =>
        let r := gradDim sdf env i d (((cs.getD i []).getD d 0)) acc2.1
        (r.1, acc2.2 ++ [r.2]))
      ((cs, n), acc)
    = ((cs, n + 2 * dim), acc ++ gradRow sdf env dim (cs.getD i [])) := by
  induction dim with
  | zero => simp [gradRow]
  | succ k ih =>
    rw [List.range_succ, List.foldl_append, ih]
    simp only [List.foldl_cons, List.foldl_nil, gradDim_run, Prod.mk.injEq]
    refine ⟨⟨trivial, by ring⟩, ?_⟩
    rw [gradRow_succ, ← List.append_assoc]

theorem gradCandidate_run (dim : ℕ) (cs : Pool) (i n : ℕ) :
    gradCandidate sdf env dim i (cs, n)
      = ((cs, n + 2 * dim), gradRow sdf env dim (cs.getD i [])) := by
  have := gradCandidate_fold sdf env dim cs i n []
  simpa [gradCandidate] using this

/-- The gradient loop over the first `k` candidates: the pool comes back
unchanged, `k * (2 * dim)` SDF evaluations are added, and the collected
matrix consists of the candidates' central-difference gradient rows. -/
theorem gradLoop_fold (dim k : ℕ) (cs : Pool) (n : ℕ) (acc : List Config) :
    (List.range k).foldl
      (fun acc2 i =>
        let r := gradCandidate sdf env dim i acc2.1
        (r.1, acc2.2 ++ [r.2]))
      ((cs, n), acc)
    = ((cs, n + k * (2 * dim)), acc ++ gradMat sdf env dim k cs) := by
  induction k with
  | zero => simp [gradMat]
  | succ k ih =>
    rw [List.range_succ, List.foldl_append, ih]
    simp only [List.foldl_cons, List.foldl_nil, gradCandidate_run, Prod.mk.injEq]
    refine ⟨⟨trivial, by ring⟩, ?_⟩
    rw [gradMat_succ, ← List.append_assoc]

theorem gradLoop_run (dim : ℕ) (cs : Pool) (n : ℕ) :
    gradLoop sdf env dim (cs, n)
      = ((cs, n + nCandidates * (2 * dim)), gradMat sdf env dim nCandidates cs) := by
  have := gradLoop_fold sdf env dim nCandidates cs n []
  simpa [gradLoop] using this

end GradRun

/-! ### Running the in-place ascent update -/

section UpdateRun

variable (lr : ℚ) (grads : List Config)

theorem updateLoop_eq_updFold (cs : Pool) :
    updateLoop lr cs grads = updFold lr grads nCandidates cs := rfl

theorem updFold_succ (k : ℕ) (cs : Pool) :
    updFold lr grads (k + 1) cs
      = (updFold lr grads k cs).set k
          (List.zipWith (fun a g => a + g * lr)
            ((updFold lr grads k cs).getD k []) (grads.getD k [])) := by
  simp only [updFold, List.range_succ, List.foldl_append, List.foldl_cons, List.foldl_nil]

theorem updFold_length (k : ℕ) (cs : Pool) :
    (updFold lr grads k cs).length = cs.length := by
  induction k with
  | zero => rfl
  | succ k ih => rw [updFold_succ]; simp [ih]

theorem updFold_getD (k : ℕ) (cs : Pool) (j : ℕ) (hj : j < cs.length) :
    (updFold lr grads k cs).getD j []
      = if j < k
        then List.zipWith (fun a g => a + g * lr) (cs.getD j []) (grads.getD j [])
        else cs.getD j [] := by
  induction k with
  | zero => simp [updFold]
  | succ k ih =>
    rw [updFold_succ]
    by_cases hjk : j = k
    · subst hjk
      rw [getD_set_self _ _ _ (by rw [updFold_length]; exact hj), ih]
      simp [hj]
    · rw [getD_set_ne _ _ _ (Ne.symm hjk), ih]
      have hlt : (j < k + 1) ↔ (j < k) := by omega
      simp [hlt]

theorem updateLoop_run (cs : Pool) (hcs : cs.length = nCandidates)
    (hg : grads.length = nCandidates) :
    updateLoop lr cs grads
      = List.zipWith (fun c g => List.zipWith (fun a gd => a + gd * lr) c g) cs grads := by
  rw [updateLoop_eq_updFold]
  apply List.ext_getElem
  · rw [updFold_length]
    simp [hcs, hg]
  · intro j h1 h2
    have h1' : j < cs.length := by rwa [updFold_length] at h1
    have hj8 : j < nCandidates := by rw [← hcs]; exact h1'
    rw [← getD_lt (updFold lr grads nCandidates cs) ([] : Config) h1,
      updFold_getD _ _ _ _ _ h1', if_pos hj8, List.getElem_zipWith,
      getD_lt _ ([] : Config) h1', getD_lt _ ([] : Config) (by rw [hg]; exact hj8)]

end UpdateRun

/-! ### Pool invariants and the step/driver equations -/

section RunLemmas

variable {Env : Type} (sdf : Config → Env → ℚ) (env : Env)
variable (uniform : ℕ → ℚ → ℚ → ℕ → ℕ → ℚ)

theorem initPool_length (q : Config) (s : ℚ) :
    (initPool uniform q s).length = nCandidates := by
  simp [initPool]

theorem initPool_getD (q : Config) (s : ℚ) (j : ℕ) (hj : j < nCandidates) :
    (initPool uniform q s).getD j []
      = List.zipWith (fun a b => a + b) q
          ((List.range q.length).map (fun d => uniform 42 (-s) s j d)) := by
  rw [getD_lt _ ([] : Config) (by rw [initPool_length]; exact hj)]
  simp [initPool]

theorem initPool_entry_length (q : Config) (s : ℚ) (j : ℕ) (hj : j < nCandidates) :
    ((initPool uniform q s).getD j []).length = q.length := by
  rw [initPool_getD uniform q s j hj]
  simp

theorem initPool_ok (q : Config) (s : ℚ) :
    PoolOK q.length (initPool uniform q s) :=
  ⟨initPool_length uniform q s, fun j hj => initPool_entry_length uniform q s j hj⟩

theorem poolOK_mem {dim : ℕ} {cs : Pool} (hcs : PoolOK dim cs) :
    ∀ c ∈ cs, c.length = dim := by
  intro c hc
  obtain ⟨j, hj, rfl⟩ := List.mem_iff_getElem.mp hc
  rw [← getD_lt cs ([] : Config) hj]
  exact hcs.2 j (by rw [← hcs.1]; exact hj)

theorem centralDiffGrad_length (c : Config) :
    (centralDiffGrad sdf env c).length = c.length := by
  simp [centralDiffGrad]

theorem gradMat_eq_map {dim : ℕ} {cs : Pool} (hcs : PoolOK dim cs) :
    gradMat sdf env dim nCandidates cs = cs.map (centralDiffGrad sdf env) := by
  obtain ⟨hlen, hent⟩ := hcs
  apply List.ext_getElem
  · simp [gradMat, hlen]
  · intro j h1 h2
    have hj8 : j < nCandidates := by simpa [gradMat] using h1
    have hjc : j < cs.length := by rw [hlen]; exact hj8
    simp only [gradMat, List.getElem_map, List.getElem_range]
    have hd : (cs[j] : Config).length = dim := by
      rw [← getD_lt cs ([] : Config) hjc]
      exact hent j hj8
    rw [getD_lt cs ([] : Config) hjc, ← hd]
    exact gradRow_eq_centralDiffGrad sdf env _

theorem stepFn_run (dim : ℕ) (lr : ℚ) (cs : Pool) (ge be : ℕ) :
    stepFn sdf env dim lr (cs, ge, be)
      = (updateLoop lr cs (gradMat sdf env dim nCandidates cs),
         ge + nCandidates * (2 * dim), be + nCandidates) := by
  simp only [stepFn, gradLoop_run, List.length_map, List.length_range]

theorem stepFn_eq_spec (dim : ℕ) (lr : ℚ) (cs : Pool) (ge be : ℕ)
    (hcs : PoolOK dim cs) :
    stepFn sdf env dim lr (cs, ge, be)
      = (specStep sdf env lr cs, ge + nCandidates * (2 * dim), be + nCandidates) := by
  rw [stepFn_run, gradMat_eq_map sdf env hcs]
  simp only [specStep]
  rw [updateLoop_run _ _ _ hcs.1 (by simp [hcs.1])]

theorem specStep_length (lr : ℚ) (cs : Pool) (h1 : cs.length = nCandidates) :
    (specStep sdf env lr cs).length = nCandidates := by
  simp [specStep, h1]

theorem specStep_ok (lr : ℚ) {dim : ℕ} {cs : Pool} (hcs : PoolOK dim cs) :
    PoolOK dim (specStep sdf env lr cs) := by
  obtain ⟨h1, h2⟩ := hcs
  refine ⟨specStep_length sdf env lr cs h1, fun j hj => ?_⟩
  have hjc : j < cs.length := by rw [h1]; exact hj
  rw [getD_lt _ ([] : Config) (by rw [specStep_length sdf env lr cs h1]; exact hj)]
  simp only [specStep, List.getElem_zipWith, List.getElem_map]
  have hd : (cs[j] : Config).length = dim := by
    rw [← getD_lt cs ([] : Config) hjc]
    exact h2 j hj
  simp [centralDiffGrad_length, hd]

theorem specIter_ok (lr : ℚ) {dim : ℕ} :
    ∀ (n : ℕ) {cs : Pool}, PoolOK dim cs →
      PoolOK dim ((List.range n).foldl (fun cs2 _ => specStep sdf env lr cs2) cs) := by
  intro n
  induction n with
  | zero => intro cs hcs; simpa using hcs
  | succ k ih =>
    intro cs hcs
    rw [List.range_succ, List.foldl_append]
    simp only [List.foldl_cons, List.foldl_nil]
    exact specStep_ok sdf env lr (ih hcs)

theorem project_loop (dim : ℕ) (lr : ℚ) :
    ∀ (n : ℕ) (cs : Pool) (ge be : ℕ), PoolOK dim cs →
      (List.range n).foldl (fun st _ => stepFn sdf env dim lr st) (cs, ge, be)
        = ((List.range n).foldl (fun cs2 _ => specStep sdf env lr cs2) cs,
           ge + n * (nCandidates * (2 * dim)), be + n * nCandidates) := by
  intro n
  induction n with
  | zero => intro cs ge be _; simp
  | succ k ih =>
    intro cs ge be hcs
    rw [List.range_succ, List.foldl_append, List.foldl_append, ih cs ge be hcs]
    simp only [List.foldl_cons, List.foldl_nil]
    rw [stepFn_eq_spec sdf env dim lr _ _ _ (specIter_ok sdf env lr k hcs)]
    simp only [Prod.mk.injEq, true_and, eq_self_iff_true]
    constructor
    · ring
    · ring

/-- Master equation: the source loop equals the spec-side
snapshot-then-update loop, the caller's buffer comes back untouched, and the
two SDF evaluation counters are exactly `steps * K * 2D` and `steps * K`. -/
theorem project_run (q : Config) (steps : ℕ) (lr s : ℚ) :
    project_to_valid sdf env uniform q steps lr s
      = ⟨q, projectSpec sdf env uniform q steps lr s,
          steps * (nCandidates * (2 * q.length)), steps * nCandidates⟩ := by
  simp only [project_to_valid, projectSpec]
  rw [project_loop sdf env q.length lr steps (initPool uniform q s) 0 0
    (initPool_ok uniform q s)]
  simp

end RunLemmas

/-! ### Zero learning rate and the inert baseline -/

section ZeroAndBase

variable {Env : Type} (sdf : Config → Env → ℚ) (env : Env)
variable (uniform : ℕ → ℚ → ℚ → ℕ → ℕ → ℚ)

theorem zipWith_add_mul_zero (c g : Config) (hg : g.length = c.length) :
    List.zipWith (fun a gd => a + gd * (0 : ℚ)) c g = c := by
  induction c generalizing g with
  | nil => simp
  | cons a as ih =>
    cases g with
    | nil => simp at hg
    | cons b bs =>
      rw [List.zipWith_cons_cons, ih bs (by simpa using hg)]
      simp

theorem specStep_zero_lr (cs : Pool) : specStep sdf env 0 cs = cs := by
  simp only [specStep]
  rw [List.zipWith_map_right, List.zipWith_same]
  exact List.map_id'' (fun c =>
    zipWith_add_mul_zero c (centralDiffGrad sdf env c) (centralDiffGrad_length sdf env c)) cs

theorem projectSpec_zero_lr (q : Config) (steps : ℕ) (s : ℚ) :
    projectSpec sdf env uniform q steps 0 s = initPool uniform q s := by
  simp only [projectSpec]
  induction steps with
  | zero => simp
  | succ k ih =>
    rw [List.range_succ, List.foldl_append, ih]
    simp [specStep_zero_lr]

theorem stepFn_noBase (dim : ℕ) (lr : ℚ) (cs : Pool) (ge be : ℕ) :
    stepFn sdf env dim lr (cs, ge, be)
      = ((stepNoBase sdf env dim lr (cs, ge)).1,
         (stepNoBase sdf env dim lr (cs, ge)).2, be + nCandidates) := by
  simp [stepFn, stepNoBase]

theorem project_noBase_loop (dim : ℕ) (lr : ℚ) :
    ∀ (n : ℕ) (cs : Pool) (ge be : ℕ),
      (List.range n).foldl (fun st _ => stepFn sdf env dim lr st) (cs, ge, be)
        = (((List.range n).foldl (fun st _ => stepNoBase sdf env dim lr st) (cs, ge)).1,
           ((List.range n).foldl (fun st _ => stepNoBase sdf env dim lr st) (cs, ge)).2,
           be + n * nCandidates) := by
  intro n
  induction n with
  | zero => intro cs ge be; simp
  | succ k ih =>
    intro cs ge be
    rw [List.range_succ, List.foldl_append, List.foldl_append, ih cs ge be]
    simp only [List.foldl_cons, List.foldl_nil]
    rw [stepFn_noBase]
    simp only [Prod.mk.injEq, true_and, eq_self_iff_true]
    ring

end ZeroAndBase

/-! ### Failure propagation in the fallible embedding -/

section FallibleRun

variable {Env : Type} (sdfE : Config → Env → Option ℚ) (env : Env)

theorem mapME_first_none (f : ℕ → Option ℚ) (hf : f 0 = none) :
    mapME f (List.range nCandidates) = none := by
  have hr : List.range nCandidates = 0 :: [1, 2, 3, 4, 5, 6, 7] := rfl
  rw [hr]
  simp [mapME, hf]

theorem stepE_none (dim : ℕ) (lr : ℚ) (cs : Pool)
    (h0 : sdfE (cs.getD 0 []) env = none) :
    stepE sdfE env dim lr cs = none := by
  simp only [stepE]
  rw [mapME_first_none (fun i => sdfE (cs.getD i []) env) h0]
  rfl

theorem loopE_succ_none (dim : ℕ) (lr : ℚ) (n : ℕ) (cs : Pool)
    (h0 : sdfE (cs.getD 0 []) env = none) :
    loopE sdfE env dim lr (n + 1) cs = none := by
  simp [loopE, stepE_none sdfE env dim lr cs h0]

end FallibleRun

/-! ### The claims -/

/-- Claim C1 (batch/synchronous update semantics): for every call to
`project_to_valid` the returned pool equals that of the snapshot-then-update
reference `projectSpec`, in which every step computes all `K` gradients from
the pool left by the previous step and never mutates the pool during gradient
computation; moreover the in-place probe mutations of `gradCandidate` are
restored exactly, so the pool it returns is the pool it was given. -/
theorem C1_batch_synchronous_updates {Env : Type} (sdf : Config → Env → ℚ)
    (env : Env) (uniform : ℕ → ℚ → ℚ → ℕ → ℕ → ℚ) (q : Config) (steps : ℕ)
    (lr s : ℚ) :
    (project_to_valid sdf env uniform q steps lr s).candidates
      = projectSpec sdf env uniform q steps lr s
    ∧ ∀ (dim : ℕ) (cs : Pool) (i n : ℕ),
        ((gradCandidate sdf env dim i (cs, n)).1).1 = cs := by
  constructor
  · rw [project_run]
  · intro dim cs i n
    rw [gradCandidate_run]

/-- Claim C2 (central-difference gradient): the gradient stored for candidate
`i` and dimension `d` equals
`(sdf(c with c[d]+h) - sdf(c with c[d]-h)) / (2h)` with `h = 1e-4`, where both
probe configurations leave the candidate's other coordinates unchanged. -/
theorem C2_central_difference_gradient {Env : Type} (sdf : Config → Env → ℚ)
    (env : Env) (cs : Pool) (dim i d n : ℕ) (hd : d < dim) :
    ((gradCandidate sdf env dim i (cs, n)).2).getD d 0
      = (sdf ((cs.getD i []).set d ((cs.getD i []).getD d 0 + h)) env
         - sdf ((cs.getD i []).set d ((cs.getD i []).getD d 0 - h)) env) / (2 * h)
    ∧ h = 1 / 10000 := by
  refine ⟨?_, rfl⟩
  rw [gradCandidate_run]
  simp only [gradRow]
  exact getD_map_range _ _ hd

/-- Witness for C2 at a concrete input: candidate `[1, 2]`, dimension `1`,
oracle summing the joint values. -/
theorem C2_central_difference_gradient_witness :
    (1 < 2) ∧
    (((gradCandidate sumSdf () 2 0 ([[(1 : ℚ), 2]], 0)).2).getD 1 0
        = (sumSdf (([[(1 : ℚ), 2]].getD 0 []).set 1
              (([[(1 : ℚ), 2]].getD 0 []).getD 1 0 + h)) ()
           - sumSdf (([[(1 : ℚ), 2]].getD 0 []).set 1
              (([[(1 : ℚ), 2]].getD 0 []).getD 1 0 - h)) ()) / (2 * h)
      ∧ h = 1 / 10000) :=
  ⟨by decide, C2_central_difference_gradient sumSdf () [[(1 : ℚ), 2]] 2 0 1 0 (by decide)⟩

/-- Claim C3 (determinism / reproducibility): the random source is freshly and
deterministically seeded inside each call (`np.random.default_rng(42)`), not a
shared mutable global: the result of `project_to_valid` does not depend on the
ambient process-wide generator state, that state is returned unchanged, and in
particular the initial pools (the `steps = 0` runs) of two calls coincide. -/
theorem C3_deterministic_seeding {Env G : Type} (sdf : Config → Env → ℚ)
    (env : Env) (uniform : ℕ → ℚ → ℚ → ℕ → ℕ → ℚ) (g1 g2 : G) (q : Config)
    (steps : ℕ) (lr s : ℚ) :
    (project_to_valid_global sdf env uniform g1 q steps lr s).1
      = (project_to_valid_global sdf env uniform g2 q steps lr s).1
    ∧ (project_to_valid_global sdf env uniform g1 q steps lr s).2 = g1
    ∧ (project_to_valid_global sdf env uniform g1 q 0 lr s).1.candidates
      = (project_to_valid_global sdf env uniform g2 q 0 lr s).1.candidates :=
  ⟨rfl, rfl, rfl⟩

/-- Claim C4 (zero-step identity): with `steps = 0` the call returns exactly
the candidate-pool initializer's output, with both SDF-evaluation counters at
zero (no gradient applied, no SDF evaluation performed). -/
theorem C4_zero_steps_identity {Env : Type} (sdf : Config → Env → ℚ)
    (env : Env) (uniform : ℕ → ℚ → ℚ → ℕ → ℕ → ℚ) (q : Config) (lr s : ℚ) :
    project_to_valid sdf env uniform q 0 lr s
      = ⟨q, initPool uniform q s, 0, 0⟩ := rfl

/-- Claim C5 (zero-learning-rate identity): with `learning_rate = 0` the
returned pool is the initializer's output for every `steps`, while the
gradient SDF evaluations are still performed each step. -/
theorem C5_zero_learning_rate_identity {Env : Type} (sdf : Config → Env → ℚ)
    (env : Env) (uniform : ℕ → ℚ → ℚ → ℕ → ℕ → ℚ) (q : Config) (steps : ℕ)
    (s : ℚ) :
    (project_to_valid sdf env uniform q steps 0 s).candidates
      = initPool uniform q s
    ∧ (project_to_valid sdf env uniform q steps 0 s).gradEvals
      = steps * (nCandidates * (2 * q.length)) := by
  rw [project_run]
  exact ⟨projectSpec_zero_lr sdf env uniform q steps s, rfl⟩

/-- Claim C6 (pool shape invariant): the returned pool always holds exactly
`K = 8` configurations, independent of `steps`, `learning_rate` and
`noise_scale`, and every returned candidate has dimension `D = len(q)`
(quantifying over `steps` covers the pool after every prefix of the run). -/
theorem C6_pool_shape_invariant {Env : Type} (sdf : Config → Env → ℚ)
    (env : Env) (uniform : ℕ → ℚ → ℚ → ℕ → ℕ → ℚ) (q : Config) (steps : ℕ)
    (lr s : ℚ) :
    ((project_to_valid sdf env uniform q steps lr s).candidates).length = 8
    ∧ ∀ c ∈ (project_to_valid sdf env uniform q steps lr s).candidates,
        c.length = q.length := by
  rw [project_run]
  have hok : PoolOK q.length (projectSpec sdf env uniform q steps lr s) := by
    simp only [projectSpec]
    exact specIter_ok sdf env lr steps (initPool_ok uniform q s)
  exact ⟨hok.1, poolOK_mem hok⟩

/-- Claim C7, counterexample to the claim as stated: with a fallible oracle
that rejects any configuration whose length differs from the robot dimension
`2`, the call `project_to_valid` on the mismatched configuration `[0]` with
`steps = 0` does not fail at all (no dimension check exists in the source), so
it does not fail before any SDF evaluation. -/
theorem C7_fail_fast_counterexample :
    [(0 : ℚ)].length ≠ 2 ∧
    project_to_validE strictSdf2 () uLow [(0 : ℚ)] 0 (1 / 2) (1 / 10) ≠ none := by
  constructor
  · decide
  · decide

/-- Claim C7 as amended: `project_to_valid` performs no dimension check of its
own.  On a mismatched configuration, with an oracle that rejects wrong-length
configurations, a call with `steps ≥ 1` fails at the first SDF evaluation —
after the pool is initialized, not before any SDF evaluation — while a call
with `steps = 0` succeeds and returns the initializer's pool; the
configuration is never truncated or padded (every candidate keeps length
`len(q)`). -/
theorem C7_fail_fast_amended {Env : Type} (sdfE : Config → Env → Option ℚ)
    (env : Env) (uniform : ℕ → ℚ → ℚ → ℕ → ℕ → ℚ) (q : Config) (D steps : ℕ)
    (lr s : ℚ) (hq : q.length ≠ D)
    (hsdf : ∀ c : Config, c.length ≠ D → sdfE c env = none)
    (hsteps : 1 ≤ steps) :
    project_to_validE sdfE env uniform q steps lr s = none
    ∧ project_to_validE sdfE env uniform q 0 lr s
      = some (initPool uniform q s)
    ∧ ∀ c ∈ initPool uniform q s, c.length = q.length := by
  refine ⟨?_, rfl, poolOK_mem (initPool_ok uniform q s)⟩
  obtain ⟨n, rfl⟩ : ∃ n, steps = n + 1 := ⟨steps - 1, by omega⟩
  simp only [project_to_validE]
  apply loopE_succ_none
  apply hsdf
  rw [initPool_entry_length uniform q s 0 (by decide)]
  exact hq

/-- Witness for the amended C7 at a concrete input: robot dimension `2`,
configuration `[0]`, one step. -/
theorem C7_fail_fast_amended_witness :
    ([(0 : ℚ)].length ≠ 2) ∧ (1 ≤ 1) ∧
    (project_to_validE strictSdf2 () uLow [(0 : ℚ)] 1 (1 / 2) (1 / 10) = none
     ∧ project_to_validE strictSdf2 () uLow [(0 : ℚ)] 0 (1 / 2) (1 / 10)
       = some (initPool uLow [(0 : ℚ)] (1 / 10))
     ∧ ∀ c ∈ initPool uLow [(0 : ℚ)] (1 / 10), c.length = [(0 : ℚ)].length) :=
  ⟨by decide, by decide,
    C7_fail_fast_amended strictSdf2 () uLow [(0 : ℚ)] 2 1 (1 / 2) (1 / 10)
      (by decide) (fun c hc => by simp [strictSdf2, hc]) (by decide)⟩

/-- Claim C8 (baseline SDF is inert): the per-candidate baseline values
`dists[i] = sdf(candidates[i], env)` are never used in the update rule: both
the returned pool and the number of gradient-estimation SDF evaluations are
identical to those of the same program with the baseline computation removed
(the oracle being a pure function). -/
theorem C8_baseline_sdf_inert {Env : Type} (sdf : Config → Env → ℚ)
    (env : Env) (uniform : ℕ → ℚ → ℚ → ℕ → ℕ → ℚ) (q : Config) (steps : ℕ)
    (lr s : ℚ) :
    (project_to_valid sdf env uniform q steps lr s).candidates
      = (projectNoBase sdf env uniform q steps lr s).1
    ∧ (project_to_valid sdf env uniform q steps lr s).gradEvals
      = (projectNoBase sdf env uniform q steps lr s).2 := by
  have hb := project_noBase_loop sdf env q.length lr steps (initPool uniform q s) 0 0
  constructor
  · simp only [project_to_valid, projectNoBase]
    rw [hb]
  · simp only [project_to_valid, projectNoBase]
    rw [hb]

/-- Claim C9 (fixed probe budget, no early exit): gradient estimation performs
exactly `2·D` SDF evaluations per candidate per step — in total
`steps * K * 2D` gradient-probe evaluations plus `steps * K` baseline
evaluations — for every input, with no per-dimension, per-candidate or
per-step early termination. -/
theorem C9_fixed_probe_budget {Env : Type} (sdf : Config → Env → ℚ)
    (env : Env) (uniform : ℕ → ℚ → ℚ → ℕ → ℕ → ℚ) (q : Config) (steps : ℕ)
    (lr s : ℚ) :
    (project_to_valid sdf env uniform q steps lr s).gradEvals
      = steps * (nCandidates * (2 * q.length))
    ∧ (project_to_valid sdf env uniform q steps lr s).baseEvals
      = steps * nCandidates := by
  rw [project_run]
  exact ⟨rfl, rfl⟩

/-- Claim C10 (caller's seed configuration untouched): the pool is built from
a fresh copy of `q` (`np.tile` plus noise) and no loop ever writes to the
caller's buffer, so after the call the caller's configuration holds exactly
its original values. -/
theorem C10_seed_configuration_untouched {Env : Type} (sdf : Config → Env → ℚ)
    (env : Env) (uniform : ℕ → ℚ → ℚ → ℕ → ℕ → ℚ) (q : Config) (steps : ℕ)
    (lr s : ℚ) :
    (project_to_valid sdf env uniform q steps lr s).qArr = q := rfl

end SDFDescent
